import Mathlib

/-!
Verification of the import-location server of `model-catalog-bridge`
(`pkg/cmd/server/location/server/server.go`), a shallow embedding in Lean 4.

The embedding models:
- the catalog store `ImportLocationServer.content : map[string]*ImportLocation`
  as an association list `CatStore` (byte payloads as `Option (List Nat)`,
  `none` standing for a nil Go slice);
- the model-card store `ImportLocationServer.modelcards` as a function map
  `MCStore := String → Option modelCardMetadata`;
- the HTTP handlers `handleCatalogDiscoveryGet`, `handleCatalogUpsertPost`,
  `handleCatalogDelete`, the per-item GET route (`handleCatalogInfoGet`), and
  `handleModelCardGet`, each as a pure function from state and request inputs
  to a status code, an optional body, and the successor state;
- the startup hydration `loadFromStorage` against an abstract storage client,
  including the process-wide mutex it takes per inserted key: the Go code
  acquires `i.lock` with a deferred unlock *inside* the per-key loop, and
  deferred calls only run at function exit, so the model tracks whether the
  (non-reentrant) lock is already held and reports a deadlock outcome when
  `Lock()` is reached a second time.

HTTP routing, logging, locking and the request-id middleware are external
collaborators and are not modelled; each handler is modelled as the atomic
state transformation it performs under the server's single lock.
-/

namespace ModelCatalogBridge

/-- Go's `strings.Split(s, "_")` on the character list: splits at every
underscore, keeping empty segments, and yields `[[]]` on empty input. -/
def splitU : List Char → List (List Char)
  | [] => [[]]
  | c :: cs =>
    match splitU cs with
    | [] => [[]]
    | g :: gs => if c = '_' then [] :: g :: gs else (c :: g) :: gs

/-- Go's `strings.Split(key, "_")` as used by the handlers and hydration. -/
def goSplitKey (s : String) : List String :=
  (splitU s.data).map (fun cs => String.mk cs)

/-- Modelled from the spec: the Key/URI Deriver (`util.BuildImportKeyAndURI`,
not part of the sources under verification) maps a `(model, version, format)`
triple deterministically to a canonical lookup key and a canonical URI path;
write and read paths use it identically. The concrete shape below reproduces
the observable behaviour pinned by the repository's tests
(`key=mnist_v1` with the catalog-info format yields URI
`/mnist/v1/catalog-info.yaml`). -/
def buildImportKeyAndURI (model version format : String) : String × String :=
  (model ++ "_" ++ version, "/" ++ model ++ "/" ++ version ++ "/" ++ format)

/-- `type ImportLocation struct { content []byte }`; `none` models a nil
slice (the logically-deleted / absent payload), `some bs` a non-nil slice
(possibly empty). -/
structure ImportLocation where
  content : Option (List Nat)
deriving DecidableEq

/-- `type modelCardMetadata struct`: model-card content, the externally
supplied freshness token (`lastUpdateTimeSinceEpoch`), the re-serve counter
(`updateCount`), and the dirty flag (`needToUpdate`). -/
structure modelCardMetadata where
  content : String
  lastUpdateTimeSinceEpoch : String
  updateCount : Nat
  needToUpdate : Bool
deriving DecidableEq

/-- Modelled from the spec: the upsert request body (`rest.PostBody`, not
part of the sources under verification) carries raw document bytes (a
nilable slice), a model-card key, model-card content, and a freshness
token. -/
structure PostBody where
  body : Option (List Nat)
  modelCardKey : String
  modelCard : String
  lastUpdateTimeSinceEpoch : String
deriving DecidableEq

/-- The catalog store `content : map[string]*ImportLocation`, as an
association list. Go map iteration order is unspecified; the list order
stands in for one arbitrary order. -/
abbrev CatStore := List (String × ImportLocation)

/-- The model-card store `modelcards : map[string]modelCardMetadata`, as a
function map (it is never enumerated by the code). -/
abbrev MCStore := String → Option modelCardMetadata

/-- Go map read `i.content[uri]`. -/
def lookupIL (c : CatStore) (uri : String) : Option ImportLocation :=
  (c.find? (fun p => p.1 = uri)).map (fun p => p.2)

/-- Go map write `u.content[uri] = il`: replace the entry if the key is
present (every occurrence, so that duplicate-key lists behave like the Go
map they model), otherwise append a fresh entry. -/
def setIL (c : CatStore) (uri : String) (il : ImportLocation) : CatStore :=
  if c.any (fun p => p.1 = uri) then
    c.map (fun p => if p.1 = uri then (uri, il) else p)
  else
    c ++ [(uri, il)]

/-- `handleCatalogDelete`'s mutation through the stored pointer:
`il, ok := u.content[uri]; if ok { il.content = nil }` — the key keeps its
slot, only the payload is cleared. -/
def clearIL (c : CatStore) (uri : String) : CatStore :=
  c.map (fun p => if p.1 = uri then (p.1, ({ content := none } : ImportLocation)) else p)

/-- Go map write `u.modelcards[key] = mcm`. -/
def setMC (m : MCStore) (key : String) (mcm : modelCardMetadata) : MCStore :=
  fun k => if k = key then some mcm else m k

/-- The server state owned by the lock: catalog store, model-card store and
the configured normalizer format (`ImportLocationServer.format`). -/
structure ServerState where
  content : CatStore
  modelcards : MCStore
  format : String

/-- The freshly constructed server of `NewImportLocationServer`: both stores
empty. -/
def initialServer (format : String) : ServerState :=
  { content := [], modelcards := fun _ => none, format := format }

/-- `func (i *ImportLocation) handleCatalogInfoGet`: 404 when the payload is
nil, otherwise 200 with the raw bytes. -/
def handleCatalogInfoGet (i : ImportLocation) : Nat × Option (List Nat) :=
  match i.content with
  | none => (404, none)
  | some bs => (200, some bs)

/-- The `GET /:model/:version/:format` route closure: derives the URI from
the path's model and version and the *server's* configured format (the
path's format segment is bound but not used in the derivation), looks the
URI up, and delegates to `handleCatalogInfoGet`; 404 when the key is
absent. -/
def modelRouteGet (s : ServerState) (model version _fmtParam : String) :
    Nat × Option (List Nat) :=
  let uri := (buildImportKeyAndURI model version s.format).2
  match lookupIL s.content uri with
  | none => (404, none)
  | some il => handleCatalogInfoGet il

/-- The URIs accumulated by `handleCatalogDiscoveryGet`'s loop: every key
whose `content` field is non-nil. -/
def presentUris (c : CatStore) : List String :=
  (c.filter (fun p => p.2.content.isSome)).map (fun p => p.1)

/-- `encoding/json` marshalling of `DicoveryResponse` (`Uris []string`
tagged `json:"uris"`): a nil slice — which is what the handler's `Uris`
field is exactly when no URI was appended — marshals as JSON `null`, a
non-empty slice as a JSON array of quoted strings. (Marshalling a
`DicoveryResponse` cannot fail, so the handler's 500 branch is
unreachable.) -/
def marshalDiscovery (uris : List String) : String :=
  match uris with
  | [] => "\x7b\"uris\":null\x7d"
  | us => "\x7b\"uris\":[" ++
      String.intercalate "," (us.map (fun u => "\"" ++ u ++ "\"")) ++ "]\x7d"

/-- `handleCatalogDiscoveryGet`: 200 with the marshalled list of present
URIs; reads the store, never mutates it. -/
def handleCatalogDiscoveryGet (s : ServerState) : Nat × String :=
  (200, marshalDiscovery (presentUris s.content))

/-- The model-card half of `handleCatalogUpsertPost` (lines 219–234): a
missing record is created dirty with a zero counter; an existing record
with a *different* stored token gets the new token, `needToUpdate = true`
and `updateCount = 0` (its `content` field is kept); an existing record
with the *same* token is written back unchanged. -/
def upsertModelCard (m : MCStore) (pb : PostBody) : MCStore :=
  let mcm : modelCardMetadata :=
    match m pb.modelCardKey with
    | none =>
        { content := pb.modelCard
          lastUpdateTimeSinceEpoch := pb.lastUpdateTimeSinceEpoch
          updateCount := 0
          needToUpdate := true }
    | some mcm =>
        if mcm.lastUpdateTimeSinceEpoch ≠ pb.lastUpdateTimeSinceEpoch then
          { mcm with
              lastUpdateTimeSinceEpoch := pb.lastUpdateTimeSinceEpoch
              needToUpdate := true
              updateCount := 0 }
        else mcm
  setMC m pb.modelCardKey mcm

/-- `handleCatalogUpsertPost` with an already-parsed body (a body that fails
`BindJSON` yields 400 with no state change and is outside this model): 400
on a missing or sub-two-segment `key`, otherwise stores the posted bytes
under the derived URI, applies the model-card upsert, and responds 201. -/
def handleCatalogUpsertPost (s : ServerState) (key : String) (pb : PostBody) :
    Nat × ServerState :=
  if key = "" then (400, s)
  else if (goSplitKey key).length < 2 then (400, s)
  else
    let segs := goSplitKey key
    let uri := (buildImportKeyAndURI (segs.getD 0 "") (segs.getD 1 "") s.format).2
    (201, { s with
              content := setIL s.content uri { content := pb.body }
              modelcards := upsertModelCard s.modelcards pb })

/-- `handleCatalogDelete`: 400 on a missing or sub-two-segment `key`;
otherwise clears the derived URI's payload (leaving the key slot in place;
a no-op when the URI was never registered) and responds 200
unconditionally. -/
def handleCatalogDelete (s : ServerState) (key : String) : Nat × ServerState :=
  if key = "" then (400, s)
  else if (goSplitKey key).length < 2 then (400, s)
  else
    let segs := goSplitKey key
    let uri := (buildImportKeyAndURI (segs.getD 0 "") (segs.getD 1 "") s.format).2
    (200, { s with content := clearIL s.content uri })

/-- `handleModelCardGet`: 404 when the key is unknown; 304 with no content
and no mutation when the record is clean (`needToUpdate = false`) and has
already been served more than 10 times; otherwise 200 with the stored
content, clearing `needToUpdate` and incrementing `updateCount`. -/
def handleModelCardGet (m : MCStore) (key : String) :
    Nat × Option String × MCStore :=
  match m key with
  | none => (404, none, m)
  | some content =>
    if content.needToUpdate = false ∧ 10 < content.updateCount then
      (304, none, m)
    else
      (200, some content.content,
        setMC m key
          { content with needToUpdate := false, updateCount := content.updateCount + 1 })

/-- Iterated model-card reads of one key: the store after `n` consecutive
`Read(key)` calls with no intervening upsert. -/
def readIter (m : MCStore) (key : String) : Nat → MCStore
  | 0 => m
  | n + 1 => (handleModelCardGet (readIter m key n) key).2.2

/-- One request against the server, for reachability statements: the four
store-touching endpoints. (`get` and `discovery` never mutate state;
`mcGet` mutates only the model-card store.) -/
inductive CatOp where
  | upsert (key : String) (pb : PostBody)
  | del (key : String)
  | get (model version fmtParam : String)
  | discovery
  | mcGet (key : String)

/-- The state transformation of one request. -/
def stepOp (s : ServerState) (op : CatOp) : ServerState :=
  match op with
  | .upsert key pb => (handleCatalogUpsertPost s key pb).2
  | .del key => (handleCatalogDelete s key).2
  | .get _ _ _ => s
  | .discovery => s
  | .mcGet key => { s with modelcards := (handleModelCardGet s.modelcards key).2.2 }

/-- The state after a sequence of requests. -/
def runOps (s : ServerState) : List CatOp → ServerState
  | [] => s
  | op :: ops => runOps (stepOp s op) ops

/-- The URI an operation writes to through the catalog store, when any:
upserts and deletes with a well-formed key target the derived URI; all
other requests touch no catalog entry. -/
def derivedUriOfKey (fmt key : String) : Option String :=
  if 2 ≤ (goSplitKey key).length then
    some (buildImportKeyAndURI ((goSplitKey key).getD 0 "") ((goSplitKey key).getD 1 "") fmt).2
  else none

/-- `op` writes to the catalog entry at `uri` (given server format `fmt`). -/
def opTouches (fmt : String) (op : CatOp) (uri : String) : Prop :=
  match op with
  | .upsert key _ => derivedUriOfKey fmt key = some uri
  | .del key => derivedUriOfKey fmt key = some uri
  | _ => False

/-- Modelled from the spec: the backing-storage client
(`storage.BridgeStorageRESTClient`, an external collaborator treated as a
black-box `list keys` / `fetch by key` API): a list call yielding a status
code, possibly an error, and the keys; and per-key fetch calls yielding a
status code, possibly an error, and the (nilable) document bytes. -/
structure BridgeStorageRESTClient where
  listRC : Nat
  listErr : Option String
  listKeys : List String
  fetchRC : String → Nat
  fetchErr : String → Option String
  fetchContent : String → Option (List Nat)

/-- The outcome of a hydration run: either the function returned (its
deferred unlocks having run at exit) with the Go `(bool, error)` pair and
the resulting store, or it blocked forever at a `Lock()` call on the
already-held non-reentrant mutex, with the store as of that moment. -/
inductive HydrationOutcome (α : Type) where
  | returned (ok : Bool) (err : Option String) (st : α)
  | deadlock (st : α)
deriving DecidableEq

/-- The per-key loop of `loadFromStorage` (lines 101–122): a key with fewer
than two underscore-separated segments is skipped; the key's document is
fetched, and a fetch error or non-200 fetch status makes the function
return `(false, nil-error)` with the store as accumulated so far (its
deferred unlocks then release the mutex); otherwise the loop reaches
`i.lock.Lock()` — `locked` records whether a previous iteration already
holds the mutex, because the paired `defer i.lock.Unlock()` only runs at
function exit, so a second `Lock()` blocks forever and the loop deadlocks;
on the first insertion the fetched bytes are stored under the derived URI
and the loop continues holding the lock. -/
def loadKeysLoop (fmt : String) (st : BridgeStorageRESTClient) :
    List String → Bool → CatStore → HydrationOutcome CatStore
  | [], _, c => .returned true none c
  | key :: rest, locked, c =>
    if (goSplitKey key).length < 2 then loadKeysLoop fmt st rest locked c
    else if (st.fetchErr key).isSome then .returned false none c
    else if st.fetchRC key ≠ 200 then .returned false none c
    else if locked then .deadlock c
    else
      loadKeysLoop fmt st rest true
        (setIL c
          (buildImportKeyAndURI ((goSplitKey key).getD 0 "")
            ((goSplitKey key).getD 1 "") fmt).2
          { content := st.fetchContent key })

/-- `loadFromStorage`: a failed or non-200 key listing aborts hydration with
`(false, nil-error)` and an untouched store; otherwise the keys are
processed in order by `loadKeysLoop`, starting with the mutex free. The
error component of a returned result is always nil. -/
def loadFromStorage (st : BridgeStorageRESTClient) (s : ServerState) :
    HydrationOutcome ServerState :=
  if st.listErr.isSome then .returned false none s
  else if st.listRC ≠ 200 then .returned false none s
  else
    match loadKeysLoop s.format st st.listKeys false s.content with
    | .returned ok e c => .returned ok e { s with content := c }
    | .deadlock c => .deadlock { s with content := c }

/-! Concrete states used by the witness theorems. -/

/-- A model-card store holding one freshly upserted record. -/
def mcW : MCStore :=
  fun k => if k = "foo" then
    some { content := "bar", lastUpdateTimeSinceEpoch := "t1",
           updateCount := 0, needToUpdate := true }
  else none

/-- The record `mcW` holds at key `foo`. -/
def rW : modelCardMetadata :=
  { content := "bar", lastUpdateTimeSinceEpoch := "t1",
    updateCount := 0, needToUpdate := true }

/-- A server state with one present and one deleted catalog entry. -/
def sW : ServerState :=
  { content :=
      [("/mnist/v1/catalog-info.yaml", { content := some [99, 114] }),
       ("/mnist/v2/catalog-info.yaml", { content := none })]
    modelcards := fun _ => none
    format := "catalog-info.yaml" }

/-- A post body carrying document bytes and a model card. -/
def pbW : PostBody :=
  { body := some [117, 112], modelCardKey := "foo", modelCard := "bar",
    lastUpdateTimeSinceEpoch := "t1" }

/-- A post body whose document-bytes field is absent (nil). -/
def pbNilW : PostBody :=
  { body := none, modelCardKey := "foo", modelCard := "bar",
    lastUpdateTimeSinceEpoch := "t1" }

/-- The model-card record reached after `j` consecutive successful reads of
a record that started dirty with a zero counter (proof abbreviation). -/
def servedRecord (r : modelCardMetadata) (j : Nat) : modelCardMetadata :=
  { content := r.content, lastUpdateTimeSinceEpoch := r.lastUpdateTimeSinceEpoch,
    updateCount := j, needToUpdate := decide (j = 0) }

/-- A storage client listing one malformed and two well-formed keys, every
fetch succeeding — the concrete failing input for the hydration deadlock. -/
def stTwoW : BridgeStorageRESTClient :=
  { listRC := 200, listErr := none, listKeys := ["bad", "a_v1", "b_v2"],
    fetchRC := fun _ => 200, fetchErr := fun _ => none,
    fetchContent := fun _ => some [104, 105] }

/-- The same storage client restricted to a single well-formed key, for
which hydration does return. -/
def stOneW : BridgeStorageRESTClient :=
  { listRC := 200, listErr := none, listKeys := ["bad", "a_v1"],
    fetchRC := fun _ => 200, fetchErr := fun _ => none,
    fetchContent := fun _ => some [104, 105] }

/-- A request sequence exercising every endpoint (witness input). -/
def opsW : List CatOp :=
  [CatOp.del "mnist_v1", CatOp.upsert "mnist_v3" pbW, CatOp.discovery,
   CatOp.mcGet "foo", CatOp.get "mnist" "v1" "catalog-info.yaml"]

/-! ### Helper lemmas about the store primitives -/

theorem find?_repl_self (c : CatStore) (u : String) (il : ImportLocation) :
    (c.map (fun p => if p.1 = u then (u, il) else p)).find?
        (fun p => decide (p.1 = u)) =
      if c.any (fun p => decide (p.1 = u)) then some (u, il) else none := by
  induction c with
  | nil => rfl
  | cons p ps ih =>
    by_cases hp : p.1 = u
    · simp only [List.map_cons, List.any_cons, List.find?_cons, hp, decide_True,
        if_pos, Bool.true_or, if_true]
    · simp only [List.map_cons, List.any_cons, List.find?_cons, hp, decide_False,
        if_neg, Bool.false_or, ite_false]
      exact ih

theorem find?_append_single_self (c : CatStore) (u : String) (il : ImportLocation)
    (h : c.any (fun p => decide (p.1 = u)) = false) :
    (c ++ [(u, il)]).find? (fun p => decide (p.1 = u)) = some (u, il) := by
  induction c with
  | nil => simp [List.find?_cons]
  | cons p ps ih =>
    rw [List.any_cons, Bool.or_eq_false_iff] at h
    rw [List.cons_append, List.find?_cons, h.1]
    exact ih h.2

theorem lookupIL_setIL_self (c : CatStore) (u : String) (il : ImportLocation) :
    lookupIL (setIL c u il) u = some il := by
  unfold lookupIL setIL
  by_cases h : c.any (fun p => decide (p.1 = u)) = true
  · rw [if_pos h, find?_repl_self, if_pos h]
    rfl
  · rw [if_neg h, find?_append_single_self c u il (Bool.eq_false_iff.mpr h)]
    rfl

theorem lookupIL_setIL_other (c : CatStore) (u : String) (il : ImportLocation)
    (u' : String) (h : u' ≠ u) :
    lookupIL (setIL c u il) u' = lookupIL c u' := by
  unfold lookupIL setIL
  by_cases hany : c.any (fun p => decide (p.1 = u)) = true
  · rw [if_pos hany]
    clear hany
    induction c with
    | nil => rfl
    | cons p ps ih =>
      by_cases hp : p.1 = u
      · have h1 : decide ((u, il).1 = u') = false :=
          decide_eq_false (fun hh => h hh.symm)
        have h2 : decide (p.1 = u') = false :=
          decide_eq_false (fun hh => h (hh ▸ hp))
        rw [List.map_cons, if_pos hp, List.find?_cons, h1, List.find?_cons, h2]
        exact ih
      · by_cases hq : p.1 = u'
        · rw [List.map_cons, if_neg hp, List.find?_cons, List.find?_cons,
            decide_eq_true hq]
        · rw [List.map_cons, if_neg hp, List.find?_cons, List.find?_cons,
            decide_eq_false hq]
          exact ih
  · rw [if_neg hany]
    induction c with
    | nil =>
      rw [List.nil_append, List.find?_cons,
        decide_eq_false (fun hh : u = u' => h hh.symm)]
    | cons p ps ih =>
      rw [List.any_cons, Bool.or_eq_true] at hany
      push_neg at hany
      by_cases hq : p.1 = u'
      · rw [List.cons_append, List.find?_cons, List.find?_cons, decide_eq_true hq]
      · rw [List.cons_append, List.find?_cons, List.find?_cons, decide_eq_false hq]
        exact ih hany.2

theorem map_fst_setIL (c : CatStore) (u : String) (il : ImportLocation) (k : String)
    (h : k ∈ c.map Prod.fst) : k ∈ (setIL c u il).map Prod.fst := by
  unfold setIL
  by_cases hany : c.any (fun p => decide (p.1 = u)) = true
  · rw [if_pos hany]
    clear hany
    induction c with
    | nil => simp at h
    | cons p ps ih =>
      rw [List.map_cons] at h ⊢
      rcases List.mem_cons.mp h with h1 | h2
      · by_cases hp : p.1 = u
        · rw [if_pos hp]
          exact List.mem_cons.mpr (Or.inl (by rw [← hp]; exact h1))
        · rw [if_neg hp]
          exact List.mem_cons.mpr (Or.inl h1)
      · by_cases hp : p.1 = u
        · rw [if_pos hp]
          exact List.mem_cons.mpr (Or.inr (ih h2))
        · rw [if_neg hp]
          exact List.mem_cons.mpr (Or.inr (ih h2))
  · rw [if_neg hany, List.map_append]
    exact List.mem_append.mpr (Or.inl h)

theorem map_fst_clearIL (c : CatStore) (u : String) :
    (clearIL c u).map Prod.fst = c.map Prod.fst := by
  unfold clearIL
  induction c with
  | nil => rfl
  | cons p ps ih =>
    by_cases hp : p.1 = u
    · simpa [hp] using ih
    · simpa [hp] using ih

theorem lookupIL_clearIL_self (c : CatStore) (u : String) :
    lookupIL (clearIL c u) u =
      (lookupIL c u).map (fun _ => ({ content := none } : ImportLocation)) := by
  unfold lookupIL clearIL
  induction c with
  | nil => rfl
  | cons p ps ih =>
    by_cases hp : p.1 = u
    · rw [List.map_cons, if_pos hp,
        List.find?_cons_of_pos _ (by simpa using hp),
        List.find?_cons_of_pos _ (by simpa using hp)]
      rfl
    · rw [List.map_cons, if_neg hp,
        List.find?_cons_of_neg _ (by simpa using hp),
        List.find?_cons_of_neg _ (by simpa using hp)]
      exact ih

theorem lookupIL_clearIL_other (c : CatStore) (u u' : String) (h : u' ≠ u) :
    lookupIL (clearIL c u) u' = lookupIL c u' := by
  unfold lookupIL clearIL
  induction c with
  | nil => rfl
  | cons p ps ih =>
    by_cases hp : p.1 = u
    · have h1 : decide ((p.1, ({ content := none } : ImportLocation)).1 = u') = false :=
        decide_eq_false (fun hh => h (hh.symm.trans hp))
      have h2 : decide (p.1 = u') = false :=
        decide_eq_false (fun hh => h (hh.symm.trans hp))
      rw [List.map_cons, if_pos hp, List.find?_cons, h1, List.find?_cons, h2]
      exact ih
    · by_cases hq : p.1 = u'
      · rw [List.map_cons, if_neg hp, List.find?_cons, List.find?_cons,
          decide_eq_true hq]
      · rw [List.map_cons, if_neg hp, List.find?_cons, List.find?_cons,
          decide_eq_false hq]
        exact ih

theorem clearIL_clearIL (c : CatStore) (u : String) :
    clearIL (clearIL c u) u = clearIL c u := by
  unfold clearIL
  rw [List.map_map]
  apply List.map_congr_left
  intro p _
  by_cases hp : p.1 = u
  · simp [hp]
  · simp [hp]

theorem mem_presentUris (c : CatStore) (x : String) :
    x ∈ presentUris c ↔ ∃ il, (x, il) ∈ c ∧ il.content.isSome = true := by
  unfold presentUris
  constructor
  · intro hx
    rcases List.mem_map.mp hx with ⟨p, hpmem, hpx⟩
    rcases List.mem_filter.mp hpmem with ⟨hmem, hf⟩
    refine ⟨p.2, ?_, hf⟩
    rw [← hpx]
    simpa using hmem
  · rintro ⟨il, hmem, hs⟩
    exact List.mem_map.mpr ⟨(x, il), List.mem_filter.mpr ⟨hmem, hs⟩, rfl⟩

theorem presentUris_subset_keys (c : CatStore) (x : String)
    (h : x ∈ presentUris c) : x ∈ c.map Prod.fst := by
  rcases (mem_presentUris c x).mp h with ⟨il, hmem, _⟩
  exact List.mem_map.mpr ⟨(x, il), hmem, rfl⟩

theorem not_mem_presentUris_clearIL (c : CatStore) (u : String) :
    u ∉ presentUris (clearIL c u) := by
  intro h
  rcases (mem_presentUris _ _).mp h with ⟨il, hmem, hs⟩
  rcases List.mem_map.mp hmem with ⟨p, _, himg⟩
  by_cases hp : p.1 = u
  · rw [if_pos hp] at himg
    injection himg with h1 h2
    rw [← h2] at hs
    simp [Option.isSome] at hs
  · rw [if_neg hp] at himg
    rw [himg] at hp
    exact hp rfl

theorem mem_presentUris_clearIL_other (c : CatStore) (u x : String) (h : x ≠ u) :
    x ∈ presentUris (clearIL c u) ↔ x ∈ presentUris c := by
  rw [mem_presentUris, mem_presentUris]
  constructor
  · rintro ⟨il, hmem, hs⟩
    rcases List.mem_map.mp hmem with ⟨p, hpmem, himg⟩
    by_cases hp : p.1 = u
    · rw [if_pos hp] at himg
      injection himg with h1 h2
      exact absurd (h1 ▸ hp) h
    · rw [if_neg hp] at himg
      exact ⟨il, himg ▸ hpmem, hs⟩
  · rintro ⟨il, hmem, hs⟩
    refine ⟨il, ?_, hs⟩
    have hx : ¬((x, il).1 = u) := h
    have heq : (if (x, il).1 = u then ((x, il).1, ({ content := none } : ImportLocation)) else (x, il)) = (x, il) := if_neg hx
    exact heq ▸ List.mem_map.mpr ⟨(x, il), hmem, rfl⟩

theorem not_mem_presentUris_setIL_none (c : CatStore) (u : String) :
    u ∉ presentUris (setIL c u ({ content := none } : ImportLocation)) := by
  intro h
  rcases (mem_presentUris _ _).mp h with ⟨il, hmem, hs⟩
  unfold setIL at hmem
  by_cases hany : c.any (fun p => decide (p.1 = u)) = true
  · rw [if_pos hany] at hmem
    rcases List.mem_map.mp hmem with ⟨p, _, himg⟩
    by_cases hp : p.1 = u
    · rw [if_pos hp] at himg
      injection himg with h1 h2
      rw [← h2] at hs
      simp [Option.isSome] at hs
    · rw [if_neg hp] at himg
      rw [himg] at hp
      exact hp rfl
  · rw [if_neg hany] at hmem
    rcases List.mem_append.mp hmem with hmem1 | hmem2
    · exact hany (List.any_eq_true.mpr ⟨(u, il), hmem1, by simp⟩)
    · have h2 := List.mem_singleton.mp hmem2
      injection h2 with h3 h4
      rw [h4] at hs
      simp [Option.isSome] at hs

theorem presentUris_eq_nil (c : CatStore) (h : ∀ p ∈ c, p.2.content = none) :
    presentUris c = [] := by
  unfold presentUris
  have hf : c.filter (fun p => p.2.content.isSome) = [] := by
    rw [List.filter_eq_nil_iff]
    intro p hp
    rw [h p hp]
    simp [Option.isSome]
  rw [hf]
  rfl

theorem find?_eq_of_mem_nodup (c : CatStore) (hnd : (c.map Prod.fst).Nodup)
    (x : String) (il : ImportLocation) (hm : (x, il) ∈ c) :
    c.find? (fun p => decide (p.1 = x)) = some (x, il) := by
  induction c with
  | nil => simp at hm
  | cons p ps ih =>
    rw [List.map_cons, List.nodup_cons] at hnd
    by_cases hp : p.1 = x
    · rw [List.find?_cons, decide_eq_true hp]
      rcases List.mem_cons.mp hm with h1 | h2
      · rw [h1]
      · exact absurd (hp ▸ List.mem_map.mpr ⟨(x, il), h2, rfl⟩) hnd.1
    · rw [List.find?_cons, decide_eq_false hp]
      rcases List.mem_cons.mp hm with h1 | h2
      · exact absurd (show p.1 = (x, il).1 by rw [h1]) hp
      · exact ih hnd.2 h2

theorem lookupIL_of_mem_nodup (c : CatStore) (hnd : (c.map Prod.fst).Nodup)
    (x : String) (il : ImportLocation) (hm : (x, il) ∈ c) :
    lookupIL c x = some il := by
  unfold lookupIL
  rw [find?_eq_of_mem_nodup c hnd x il hm]
  rfl

theorem mem_of_lookupIL (c : CatStore) (x : String) (il : ImportLocation)
    (h : lookupIL c x = some il) : (x, il) ∈ c := by
  unfold lookupIL at h
  cases hf : c.find? (fun p => decide (p.1 = x)) with
  | none => rw [hf] at h; simp at h
  | some p =>
    rw [hf] at h
    have hp : p.2 = il := by simpa using h
    have hmem : p ∈ c := List.mem_of_find?_eq_some hf
    have hpred := List.find?_some hf
    have hx : p.1 = x := of_decide_eq_true hpred
    have hpe : p = (x, il) := by
      rw [← hx, ← hp]
    exact hpe ▸ hmem

theorem setMC_self (m : MCStore) (k : String) (v : modelCardMetadata) :
    setMC m k v k = some v := by
  unfold setMC
  rw [if_pos rfl]

theorem setMC_other (m : MCStore) (k : String) (v : modelCardMetadata)
    (k' : String) (h : k' ≠ k) : setMC m k v k' = m k' := by
  unfold setMC
  rw [if_neg h]

theorem handleModelCardGet_of_lookup (m : MCStore) (key : String)
    (r : modelCardMetadata) (hm : m key = some r) :
    handleModelCardGet m key =
      if r.needToUpdate = false ∧ 10 < r.updateCount then (304, none, m)
      else (200, some r.content,
        setMC m key { r with needToUpdate := false, updateCount := r.updateCount + 1 }) := by
  unfold handleModelCardGet
  rw [hm]

theorem readIter_lookup (m : MCStore) (k : String) (r : modelCardMetadata)
    (hm : m k = some r) (hd : r.needToUpdate = true) (hc : r.updateCount = 0) :
    ∀ j, j ≤ 11 → readIter m k j k = some (servedRecord r j) := by
  intro j
  induction j with
  | zero =>
    intro _
    rw [readIter, hm]
    cases r with
    | mk rc rl ru rn =>
      simp only at hd hc
      rw [hd, hc]
      rfl
  | succ j ih =>
    intro hj
    have hj' : j ≤ 11 := Nat.le_of_succ_le hj
    have hj10 : j ≤ 10 := Nat.lt_succ_iff.mp (Nat.lt_of_succ_le hj)
    have hguard : ¬((servedRecord r j).needToUpdate = false ∧
        10 < (servedRecord r j).updateCount) := by
      rintro ⟨_, h2⟩
      exact absurd h2 (Nat.not_lt.mpr hj10)
    rw [readIter, handleModelCardGet_of_lookup _ _ _ (ih hj'), if_neg hguard]
    show setMC (readIter m k j) k _ k = _
    rw [setMC_self]
    rfl

theorem read_fresh_step (m : MCStore) (k : String) (r : modelCardMetadata)
    (hm : m k = some r) (hd : r.needToUpdate = true) (hc : r.updateCount = 0)
    (j : Nat) (hj : j < 11) :
    handleModelCardGet (readIter m k j) k =
      (200, some r.content, readIter m k (j + 1)) := by
  have hl := readIter_lookup m k r hm hd hc j (Nat.le_of_lt hj)
  have hj10 : j ≤ 10 := Nat.lt_succ_iff.mp hj
  have hguard : ¬((servedRecord r j).needToUpdate = false ∧
      10 < (servedRecord r j).updateCount) := by
    rintro ⟨_, h2⟩
    exact absurd h2 (Nat.not_lt.mpr hj10)
  have hstep : handleModelCardGet (readIter m k j) k =
      (200, some r.content,
        setMC (readIter m k j) k
          { servedRecord r j with
              needToUpdate := false,
              updateCount := (servedRecord r j).updateCount + 1 }) := by
    rw [handleModelCardGet_of_lookup _ _ _ hl, if_neg hguard]
    rfl
  rw [hstep]
  have h3 : readIter m k (j + 1) =
      setMC (readIter m k j) k
        { servedRecord r j with
            needToUpdate := false,
            updateCount := (servedRecord r j).updateCount + 1 } := by
    show (handleModelCardGet (readIter m k j) k).2.2 = _
    rw [hstep]
  rw [h3]

theorem read_throttled_at_11 (m : MCStore) (k : String) (r : modelCardMetadata)
    (hm : m k = some r) (hd : r.needToUpdate = true) (hc : r.updateCount = 0) :
    handleModelCardGet (readIter m k 11) k = (304, none, readIter m k 11) := by
  have hl := readIter_lookup m k r hm hd hc 11 (Nat.le_refl 11)
  have hguard : ((servedRecord r 11).needToUpdate = false ∧
      10 < (servedRecord r 11).updateCount) := by
    constructor
    · rfl
    · exact Nat.lt_succ_self 10
  rw [handleModelCardGet_of_lookup _ _ _ hl, if_pos hguard]

theorem upsert_changed_token_resets (m : MCStore) (k : String)
    (r : modelCardMetadata) (pb : PostBody) (hm : m k = some r)
    (hk : pb.modelCardKey = k)
    (ht : pb.lastUpdateTimeSinceEpoch ≠ r.lastUpdateTimeSinceEpoch) :
    upsertModelCard m pb k =
      some { content := r.content,
             lastUpdateTimeSinceEpoch := pb.lastUpdateTimeSinceEpoch,
             updateCount := 0,
             needToUpdate := true } := by
  have hne : r.lastUpdateTimeSinceEpoch ≠ pb.lastUpdateTimeSinceEpoch := Ne.symm ht
  unfold upsertModelCard
  rw [hk, hm]
  show setMC m k
      (if r.lastUpdateTimeSinceEpoch ≠ pb.lastUpdateTimeSinceEpoch then
        { content := r.content,
          lastUpdateTimeSinceEpoch := pb.lastUpdateTimeSinceEpoch,
          updateCount := 0,
          needToUpdate := true }
      else r) k = _
  rw [if_pos hne, setMC_self]

/-! ### Step lemmas for request sequences -/

theorem stepOp_format (s : ServerState) (op : CatOp) :
    (stepOp s op).format = s.format := by
  cases op with
  | upsert key pb =>
    show ((handleCatalogUpsertPost s key pb).2).format = s.format
    unfold handleCatalogUpsertPost
    by_cases h1 : key = ""
    · rw [if_pos h1]
    · rw [if_neg h1]
      by_cases h2 : (goSplitKey key).length < 2
      · rw [if_pos h2]
      · rw [if_neg h2]
  | del key =>
    show ((handleCatalogDelete s key).2).format = s.format
    unfold handleCatalogDelete
    by_cases h1 : key = ""
    · rw [if_pos h1]
    · rw [if_neg h1]
      by_cases h2 : (goSplitKey key).length < 2
      · rw [if_pos h2]
      · rw [if_neg h2]
  | get model version fmtParam => rfl
  | discovery => rfl
  | mcGet key => rfl

theorem runOps_format (s : ServerState) (ops : List CatOp) :
    (runOps s ops).format = s.format := by
  induction ops generalizing s with
  | nil => rfl
  | cons op ops ih =>
    rw [runOps, ih, stepOp_format]

theorem stepOp_keys_mono (s : ServerState) (op : CatOp) (k : String)
    (h : k ∈ s.content.map Prod.fst) :
    k ∈ (stepOp s op).content.map Prod.fst := by
  cases op with
  | upsert key pb =>
    show k ∈ ((handleCatalogUpsertPost s key pb).2).content.map Prod.fst
    unfold handleCatalogUpsertPost
    by_cases h1 : key = ""
    · rw [if_pos h1]; exact h
    · rw [if_neg h1]
      by_cases h2 : (goSplitKey key).length < 2
      · rw [if_pos h2]; exact h
      · rw [if_neg h2]
        exact map_fst_setIL _ _ _ _ h
  | del key =>
    show k ∈ ((handleCatalogDelete s key).2).content.map Prod.fst
    unfold handleCatalogDelete
    by_cases h1 : key = ""
    · rw [if_pos h1]; exact h
    · rw [if_neg h1]
      by_cases h2 : (goSplitKey key).length < 2
      · rw [if_pos h2]; exact h
      · rw [if_neg h2]
        show k ∈ (clearIL s.content _).map Prod.fst
        rw [map_fst_clearIL]
        exact h
  | get model version fmtParam => exact h
  | discovery => exact h
  | mcGet key => exact h

theorem runOps_keys_mono (s : ServerState) (ops : List CatOp) (k : String)
    (h : k ∈ s.content.map Prod.fst) :
    k ∈ (runOps s ops).content.map Prod.fst := by
  induction ops generalizing s with
  | nil => exact h
  | cons op ops ih =>
    rw [runOps]
    exact ih _ (stepOp_keys_mono s op k h)

theorem delete_preserves_keys (s : ServerState) (key : String) :
    ((handleCatalogDelete s key).2).content.map Prod.fst = s.content.map Prod.fst := by
  unfold handleCatalogDelete
  by_cases h1 : key = ""
  · rw [if_pos h1]
  · rw [if_neg h1]
    by_cases h2 : (goSplitKey key).length < 2
    · rw [if_pos h2]
    · rw [if_neg h2]
      show (clearIL s.content _).map Prod.fst = s.content.map Prod.fst
      rw [map_fst_clearIL]

theorem stepOp_lookup_frame (s : ServerState) (op : CatOp) (uri : String)
    (h : ¬ opTouches s.format op uri) :
    lookupIL (stepOp s op).content uri = lookupIL s.content uri := by
  cases op with
  | upsert key pb =>
    show lookupIL ((handleCatalogUpsertPost s key pb).2).content uri = _
    unfold handleCatalogUpsertPost
    by_cases h1 : key = ""
    · rw [if_pos h1]
    · rw [if_neg h1]
      by_cases h2 : (goSplitKey key).length < 2
      · rw [if_pos h2]
      · rw [if_neg h2]
        have hlen : 2 ≤ (goSplitKey key).length := Nat.not_lt.mp h2
        have hder : derivedUriOfKey s.format key =
            some (buildImportKeyAndURI ((goSplitKey key).getD 0 "")
              ((goSplitKey key).getD 1 "") s.format).2 := by
          unfold derivedUriOfKey
          rw [if_pos hlen]
        have hne : uri ≠ (buildImportKeyAndURI ((goSplitKey key).getD 0 "")
            ((goSplitKey key).getD 1 "") s.format).2 := by
          intro he
          apply h
          show derivedUriOfKey s.format key = some uri
          rw [hder, he]
        exact lookupIL_setIL_other _ _ _ _ hne
  | del key =>
    show lookupIL ((handleCatalogDelete s key).2).content uri = _
    unfold handleCatalogDelete
    by_cases h1 : key = ""
    · rw [if_pos h1]
    · rw [if_neg h1]
      by_cases h2 : (goSplitKey key).length < 2
      · rw [if_pos h2]
      · rw [if_neg h2]
        have hlen : 2 ≤ (goSplitKey key).length := Nat.not_lt.mp h2
        have hder : derivedUriOfKey s.format key =
            some (buildImportKeyAndURI ((goSplitKey key).getD 0 "")
              ((goSplitKey key).getD 1 "") s.format).2 := by
          unfold derivedUriOfKey
          rw [if_pos hlen]
        have hne : uri ≠ (buildImportKeyAndURI ((goSplitKey key).getD 0 "")
            ((goSplitKey key).getD 1 "") s.format).2 := by
          intro he
          apply h
          show derivedUriOfKey s.format key = some uri
          rw [hder, he]
        exact lookupIL_clearIL_other _ _ _ hne
  | get model version fmtParam => rfl
  | discovery => rfl
  | mcGet key => rfl

theorem runOps_lookup_frame (s : ServerState) (ops : List CatOp) (uri : String)
    (h : ∀ op ∈ ops, ¬ opTouches s.format op uri) :
    lookupIL (runOps s ops).content uri = lookupIL s.content uri := by
  induction ops generalizing s with
  | nil => rfl
  | cons op ops ih =>
    rw [runOps]
    rw [ih (stepOp s op) ?_, stepOp_lookup_frame s op uri (h op (List.mem_cons_self op ops))]
    intro op' hop'
    rw [stepOp_format]
    exact h op' (List.mem_cons_of_mem op hop')

/-! ### Characterizations of the handlers on well-formed input -/

theorem handleCatalogUpsertPost_wf (s : ServerState) (key : String) (pb : PostBody)
    (hk : 2 ≤ (goSplitKey key).length) :
    handleCatalogUpsertPost s key pb =
      (201, { s with
                content := setIL s.content
                  (buildImportKeyAndURI ((goSplitKey key).getD 0 "")
                    ((goSplitKey key).getD 1 "") s.format).2
                  { content := pb.body }
                modelcards := upsertModelCard s.modelcards pb }) := by
  have hne0 : ¬ key = "" := by
    intro he
    rw [he] at hk
    exact absurd hk (by decide)
  unfold handleCatalogUpsertPost
  rw [if_neg hne0, if_neg (Nat.not_lt.mpr hk)]

theorem handleCatalogDelete_wf (s : ServerState) (key : String)
    (hk : 2 ≤ (goSplitKey key).length) :
    handleCatalogDelete s key =
      (200, { s with
                content := clearIL s.content
                  (buildImportKeyAndURI ((goSplitKey key).getD 0 "")
                    ((goSplitKey key).getD 1 "") s.format).2 }) := by
  have hne0 : ¬ key = "" := by
    intro he
    rw [he] at hk
    exact absurd hk (by decide)
  unfold handleCatalogDelete
  rw [if_neg hne0, if_neg (Nat.not_lt.mpr hk)]

theorem modelRouteGet_of_lookup (s : ServerState) (model version fmtParam : String)
    (il : ImportLocation)
    (h : lookupIL s.content ((buildImportKeyAndURI model version s.format).2) = some il) :
    modelRouteGet s model version fmtParam = handleCatalogInfoGet il := by
  show (match lookupIL s.content ((buildImportKeyAndURI model version s.format).2) with
    | none => ((404 : Nat), (none : Option (List Nat)))
    | some il => handleCatalogInfoGet il) = handleCatalogInfoGet il
  rw [h]

theorem modelRouteGet_of_lookup_none (s : ServerState) (model version fmtParam : String)
    (h : lookupIL s.content ((buildImportKeyAndURI model version s.format).2) = none) :
    modelRouteGet s model version fmtParam = (404, none) := by
  show (match lookupIL s.content ((buildImportKeyAndURI model version s.format).2) with
    | none => ((404 : Nat), (none : Option (List Nat)))
    | some il => handleCatalogInfoGet il) = (404, none)
  rw [h]

theorem handleModelCardGet_of_none (m : MCStore) (key : String)
    (hm : m key = none) : handleModelCardGet m key = (404, none, m) := by
  unfold handleModelCardGet
  rw [hm]

theorem upsertModelCard_eq_none (m : MCStore) (pb : PostBody)
    (hmc : m pb.modelCardKey = none) :
    upsertModelCard m pb = setMC m pb.modelCardKey
      { content := pb.modelCard,
        lastUpdateTimeSinceEpoch := pb.lastUpdateTimeSinceEpoch,
        updateCount := 0,
        needToUpdate := true } := by
  unfold upsertModelCard
  rw [hmc]

theorem upsertModelCard_eq_some (m : MCStore) (pb : PostBody)
    (mcm0 : modelCardMetadata) (hmc : m pb.modelCardKey = some mcm0) :
    upsertModelCard m pb = setMC m pb.modelCardKey
      (if mcm0.lastUpdateTimeSinceEpoch ≠ pb.lastUpdateTimeSinceEpoch then
        { content := mcm0.content,
          lastUpdateTimeSinceEpoch := pb.lastUpdateTimeSinceEpoch,
          updateCount := 0,
          needToUpdate := true }
      else mcm0) := by
  unfold upsertModelCard
  rw [hmc]

theorem delete_preserves_modelcards (s : ServerState) (key : String) :
    ((handleCatalogDelete s key).2).modelcards = s.modelcards := by
  unfold handleCatalogDelete
  by_cases h1 : key = ""
  · rw [if_pos h1]
  · rw [if_neg h1]
    by_cases h2 : (goSplitKey key).length < 2
    · rw [if_pos h2]
    · rw [if_neg h2]

/-! ### The dirty-implies-zero-counter invariant -/

theorem upsertModelCard_inv (m : MCStore) (pb : PostBody)
    (h : ∀ k r, m k = some r → r.needToUpdate = true → r.updateCount = 0) :
    ∀ k r, upsertModelCard m pb k = some r →
      r.needToUpdate = true → r.updateCount = 0 := by
  intro k r hm' hd'
  cases hmc : m pb.modelCardKey with
  | none =>
    rw [upsertModelCard_eq_none m pb hmc] at hm'
    unfold setMC at hm'
    by_cases hkk : k = pb.modelCardKey
    · rw [if_pos hkk] at hm'
      injection hm' with he
      rw [← he]
    · rw [if_neg hkk] at hm'
      exact h k r hm' hd'
  | some mcm0 =>
    rw [upsertModelCard_eq_some m pb mcm0 hmc] at hm'
    unfold setMC at hm'
    by_cases hkk : k = pb.modelCardKey
    · rw [if_pos hkk] at hm'
      by_cases htok : mcm0.lastUpdateTimeSinceEpoch ≠ pb.lastUpdateTimeSinceEpoch
      · rw [if_pos htok] at hm'
        injection hm' with he
        rw [← he]
      · rw [if_neg htok] at hm'
        injection hm' with he
        rw [← he] at hd' ⊢
        exact h pb.modelCardKey mcm0 hmc hd'
    · rw [if_neg hkk] at hm'
      exact h k r hm' hd'

theorem readStore_inv (m : MCStore) (key : String)
    (h : ∀ k r, m k = some r → r.needToUpdate = true → r.updateCount = 0) :
    ∀ k r, (handleModelCardGet m key).2.2 k = some r →
      r.needToUpdate = true → r.updateCount = 0 := by
  intro k r hm' hd'
  cases hmk : m key with
  | none =>
    rw [handleModelCardGet_of_none m key hmk] at hm'
    exact h k r hm' hd'
  | some r0 =>
    rw [handleModelCardGet_of_lookup m key r0 hmk] at hm'
    by_cases hguard : r0.needToUpdate = false ∧ 10 < r0.updateCount
    · rw [if_pos hguard] at hm'
      exact h k r hm' hd'
    · rw [if_neg hguard] at hm'
      show r.updateCount = 0
      have : setMC m key
          { r0 with needToUpdate := false, updateCount := r0.updateCount + 1 } k =
          some r := hm'
      unfold setMC at this
      by_cases hkk : k = key
      · rw [if_pos hkk] at this
        injection this with he
        rw [← he] at hd'
        exact absurd hd' (by simp)
      · rw [if_neg hkk] at this
        exact h k r this hd'

theorem stepOp_mcInv (s : ServerState) (op : CatOp)
    (h : ∀ k r, s.modelcards k = some r → r.needToUpdate = true → r.updateCount = 0) :
    ∀ k r, (stepOp s op).modelcards k = some r →
      r.needToUpdate = true → r.updateCount = 0 := by
  cases op with
  | upsert key pb =>
    show ∀ k r, ((handleCatalogUpsertPost s key pb).2).modelcards k = some r → _
    unfold handleCatalogUpsertPost
    by_cases h1 : key = ""
    · rw [if_pos h1]; exact h
    · rw [if_neg h1]
      by_cases h2 : (goSplitKey key).length < 2
      · rw [if_pos h2]; exact h
      · rw [if_neg h2]
        exact upsertModelCard_inv s.modelcards pb h
  | del key =>
    show ∀ k r, ((handleCatalogDelete s key).2).modelcards k = some r → _
    rw [delete_preserves_modelcards]
    exact h
  | get model version fmtParam => exact h
  | discovery => exact h
  | mcGet key => exact readStore_inv s.modelcards key h

theorem runOps_mcInv (s : ServerState) (ops : List CatOp)
    (h : ∀ k r, s.modelcards k = some r → r.needToUpdate = true → r.updateCount = 0) :
    ∀ k r, (runOps s ops).modelcards k = some r →
      r.needToUpdate = true → r.updateCount = 0 := by
  induction ops generalizing s with
  | nil => exact h
  | cons op ops ih =>
    rw [runOps]
    exact ih (stepOp s op) (stepOp_mcInv s op h)

/-! ### Claim theorems -/

/-- C2, counterexample: on the empty catalog store the discovery handler
responds 200 with body `{"uris":null}` — the URI field is JSON `null` (a nil
Go slice is marshalled as `null`), not the empty array the claim requires;
the two bodies differ. This is the behaviour pinned by the repository's own
test (`expectedBody: {"uris":null}` in `TestHandleCatalogDiscoveryGet`). -/
theorem discovery_empty_store_yields_null :
    handleCatalogDiscoveryGet (initialServer "catalog-info.yaml") =
      (200, "\x7b\"uris\":null\x7d") ∧
    "\x7b\"uris\":null\x7d" ≠ "\x7b\"uris\":[]\x7d" := by
  constructor
  · rfl
  · decide

/-- C2, amended: when the catalog store contains no entry with a non-absent
payload (empty store, or all payloads cleared), the discovery handler
responds 200 with a JSON object whose single URI field is `null` (the
marshalling of a nil slice), not an empty array. -/
theorem discovery_all_absent_responds_null (s : ServerState)
    (h : ∀ p ∈ s.content, p.2.content = none) :
    handleCatalogDiscoveryGet s = (200, "\x7b\"uris\":null\x7d") := by
  unfold handleCatalogDiscoveryGet
  rw [presentUris_eq_nil s.content h]
  rfl

/-- C2, witness: the amended theorem applied to a store holding one
logically-deleted entry. -/
theorem discovery_all_absent_responds_null_witness :
    handleCatalogDiscoveryGet
      { content := [("/mnist/v9/catalog-info.yaml", { content := none })],
        modelcards := fun _ => none, format := "catalog-info.yaml" } =
      (200, "\x7b\"uris\":null\x7d") :=
  discovery_all_absent_responds_null _ (by
    intro p hp
    rcases List.mem_singleton.mp hp with h
    rw [h])

/-- C3: an upsert whose incoming freshness token equals the stored token
leaves the whole model-card store pointwise unchanged — the keyed record
keeps its content, token, dirty flag and serve counter even if the incoming
model-card content differs. -/
theorem upsert_unchanged_token_is_noop (s : ServerState) (key : String)
    (pb : PostBody) (r : modelCardMetadata)
    (hm : s.modelcards pb.modelCardKey = some r)
    (ht : pb.lastUpdateTimeSinceEpoch = r.lastUpdateTimeSinceEpoch) :
    ∀ k, ((handleCatalogUpsertPost s key pb).2).modelcards k = s.modelcards k := by
  intro k
  unfold handleCatalogUpsertPost
  by_cases h1 : key = ""
  · rw [if_pos h1]
  · rw [if_neg h1]
    by_cases h2 : (goSplitKey key).length < 2
    · rw [if_pos h2]
    · rw [if_neg h2]
      show upsertModelCard s.modelcards pb k = s.modelcards k
      rw [upsertModelCard_eq_some s.modelcards pb r hm,
        if_neg (fun hh => hh ht.symm)]
      unfold setMC
      by_cases hkk : k = pb.modelCardKey
      · rw [if_pos hkk, hkk]
        exact hm.symm
      · rw [if_neg hkk]

/-- C3, witness: an unchanged-token upsert (with different incoming
content) against a one-record store leaves the record unchanged. -/
theorem upsert_unchanged_token_is_noop_witness :
    ((handleCatalogUpsertPost
        { content := [], modelcards := mcW, format := "catalog-info.yaml" }
        "mnist_v1"
        { body := some [117], modelCardKey := "foo",
          modelCard := "completely different content",
          lastUpdateTimeSinceEpoch := "t1" }).2).modelcards "foo" = mcW "foo" :=
  upsert_unchanged_token_is_noop
    { content := [], modelcards := mcW, format := "catalog-info.yaml" }
    "mnist_v1"
    { body := some [117], modelCardKey := "foo",
      modelCard := "completely different content",
      lastUpdateTimeSinceEpoch := "t1" }
    rW (by decide) (by decide) "foo"

/-- C4: in every state reachable by any request sequence, the catalog
store's key set never shrinks — a URI key present before the sequence is
still present after it — and a delete leaves the key list exactly as it
was, only clearing the keyed payload. -/
theorem catalog_keys_never_removed (s : ServerState) (ops : List CatOp)
    (uri : String) (h : uri ∈ s.content.map Prod.fst) :
    uri ∈ (runOps s ops).content.map Prod.fst ∧
    (∀ key, ((handleCatalogDelete s key).2).content.map Prod.fst =
      s.content.map Prod.fst) :=
  ⟨runOps_keys_mono s ops uri h, fun key => delete_preserves_keys s key⟩

/-- C4, witness: a key registered in `sW` survives a delete of its own key,
an upsert of another key, a discovery read, a model-card read and an item
get. -/
theorem catalog_keys_never_removed_witness :
    "/mnist/v1/catalog-info.yaml" ∈ (runOps sW opsW).content.map Prod.fst :=
  (catalog_keys_never_removed sW opsW "/mnist/v1/catalog-info.yaml" (by decide)).1

/-- C5: delete is idempotent. For every well-formed key (at least two
underscore-separated segments) and its derived URI: the delete responds
200 whether or not the URI was ever created; deleting again returns 200
and the identical state; the model-card store and format are untouched;
every other URI's entry is untouched; the target URI's entry — if any —
has exactly its payload cleared; and discovery's output equals the
pre-delete output with just that URI removed. -/
theorem delete_is_idempotent (s : ServerState) (key uri : String)
    (hk : 2 ≤ (goSplitKey key).length)
    (huri : uri = (buildImportKeyAndURI ((goSplitKey key).getD 0 "")
      ((goSplitKey key).getD 1 "") s.format).2) :
    (handleCatalogDelete s key).1 = 200 ∧
    handleCatalogDelete (handleCatalogDelete s key).2 key =
      (200, (handleCatalogDelete s key).2) ∧
    ((handleCatalogDelete s key).2).modelcards = s.modelcards ∧
    ((handleCatalogDelete s key).2).format = s.format ∧
    (∀ uri', uri' ≠ uri →
      lookupIL ((handleCatalogDelete s key).2).content uri' =
        lookupIL s.content uri') ∧
    lookupIL ((handleCatalogDelete s key).2).content uri =
      (lookupIL s.content uri).map
        (fun _ => ({ content := none } : ImportLocation)) ∧
    (∀ x, x ∈ presentUris ((handleCatalogDelete s key).2).content ↔
      x ∈ presentUris s.content ∧ x ≠ uri) := by
  have hdel : handleCatalogDelete s key =
      (200, { s with content := clearIL s.content uri }) := by
    rw [handleCatalogDelete_wf s key hk, ← huri]
  refine ⟨?_, ?_, ?_, ?_, ?_, ?_, ?_⟩
  · rw [hdel]
  · rw [hdel]
    rw [handleCatalogDelete_wf { s with content := clearIL s.content uri } key hk]
    show (200, { s with
                   content := clearIL (clearIL s.content uri)
                     (buildImportKeyAndURI ((goSplitKey key).getD 0 "")
                       ((goSplitKey key).getD 1 "") s.format).2 }) = _
    rw [← huri, clearIL_clearIL]
  · rw [hdel]
  · rw [hdel]
  · intro uri' hne
    rw [hdel]
    exact lookupIL_clearIL_other s.content uri uri' hne
  · rw [hdel]
    exact lookupIL_clearIL_self s.content uri
  · intro x
    rw [hdel]
    show x ∈ presentUris (clearIL s.content uri) ↔ _
    by_cases hx : x = uri
    · rw [hx]
      constructor
      · intro hmem
        exact absurd hmem (not_mem_presentUris_clearIL s.content uri)
      · rintro ⟨_, hne⟩
        exact absurd rfl hne
    · rw [mem_presentUris_clearIL_other s.content uri x hx]
      constructor
      · intro hmem
        exact ⟨hmem, hx⟩
      · rintro ⟨hmem, _⟩
        exact hmem

/-- C5, witness: deleting the never-created key `mnist_v9` from `sW`
succeeds with 200. -/
theorem delete_is_idempotent_witness :
    (handleCatalogDelete sW "mnist_v9").1 = 200 :=
  (delete_is_idempotent sW "mnist_v9" "/mnist/v9/catalog-info.yaml"
    (by decide) (by decide)).1

/-- C6: for every store whose key list is duplicate-free, discovery lists
exactly the URIs whose payload is present; a URI with no entry is never
listed and the item get on it returns 404; and after a delete of a
well-formed key, the derived URI is never listed even though its key slot
(if it existed) is still in the mapping. -/
theorem discovery_lists_exactly_present (s : ServerState)
    (hnd : (s.content.map Prod.fst).Nodup) (uri : String) :
    (uri ∈ presentUris s.content ↔
      ∃ il, lookupIL s.content uri = some il ∧ il.content.isSome = true) ∧
    (lookupIL s.content uri = none →
      uri ∉ presentUris s.content ∧
      ∀ model version fmtParam,
        uri = (buildImportKeyAndURI model version s.format).2 →
        modelRouteGet s model version fmtParam = (404, none)) ∧
    (∀ key, 2 ≤ (goSplitKey key).length →
      uri = (buildImportKeyAndURI ((goSplitKey key).getD 0 "")
        ((goSplitKey key).getD 1 "") s.format).2 →
      uri ∉ presentUris ((handleCatalogDelete s key).2).content ∧
      (uri ∈ s.content.map Prod.fst →
        uri ∈ ((handleCatalogDelete s key).2).content.map Prod.fst)) := by
  refine ⟨?_, ?_, ?_⟩
  · constructor
    · intro hmem
      rcases (mem_presentUris s.content uri).mp hmem with ⟨il, hm, hs⟩
      exact ⟨il, lookupIL_of_mem_nodup s.content hnd uri il hm, hs⟩
    · rintro ⟨il, hl, hs⟩
      exact (mem_presentUris s.content uri).mpr
        ⟨il, mem_of_lookupIL s.content uri il hl, hs⟩
  · intro hnone
    constructor
    · intro hmem
      rcases (mem_presentUris s.content uri).mp hmem with ⟨il, hm, hs⟩
      rw [lookupIL_of_mem_nodup s.content hnd uri il hm] at hnone
      exact Option.noConfusion hnone
    · intro model version fmtParam huri
      exact modelRouteGet_of_lookup_none s model version fmtParam (huri ▸ hnone)
  · intro key hk huri
    have hdel : handleCatalogDelete s key =
        (200, { s with content := clearIL s.content uri }) := by
      rw [handleCatalogDelete_wf s key hk, ← huri]
    constructor
    · rw [hdel]
      exact not_mem_presentUris_clearIL s.content uri
    · intro hmem
      rw [delete_preserves_keys]
      exact hmem

/-- C6, witness: in `sW` (one present, one cleared entry), the cleared URI
is listed by discovery exactly when it has a present payload — which it
does not. -/
theorem discovery_lists_exactly_present_witness :
    "/mnist/v2/catalog-info.yaml" ∈ presentUris sW.content ↔
      ∃ il, lookupIL sW.content "/mnist/v2/catalog-info.yaml" = some il ∧
        il.content.isSome = true :=
  (discovery_lists_exactly_present sW (by decide) "/mnist/v2/catalog-info.yaml").1

/-- C9: an upsert with a well-formed key whose parsed body carries no
document bytes (a nil `Body` field) still responds 201 and registers the
derived URI in the store, but the entry it creates is observably deleted:
the item get on the triple returns 404 and discovery omits the URI. -/
theorem upsert_nil_body_registers_absent (s : ServerState) (key uri : String)
    (pb : PostBody) (hk : 2 ≤ (goSplitKey key).length) (hb : pb.body = none)
    (huri : uri = (buildImportKeyAndURI ((goSplitKey key).getD 0 "")
      ((goSplitKey key).getD 1 "") s.format).2) :
    (handleCatalogUpsertPost s key pb).1 = 201 ∧
    lookupIL ((handleCatalogUpsertPost s key pb).2).content uri =
      some ({ content := none } : ImportLocation) ∧
    (∀ fmtParam, modelRouteGet (handleCatalogUpsertPost s key pb).2
      ((goSplitKey key).getD 0 "") ((goSplitKey key).getD 1 "") fmtParam =
      (404, none)) ∧
    uri ∉ presentUris ((handleCatalogUpsertPost s key pb).2).content := by
  have hup : handleCatalogUpsertPost s key pb =
      (201, { s with
                content := setIL s.content uri { content := none }
                modelcards := upsertModelCard s.modelcards pb }) := by
    rw [handleCatalogUpsertPost_wf s key pb hk, ← huri, hb]
  have hlook : lookupIL ((handleCatalogUpsertPost s key pb).2).content uri =
      some ({ content := none } : ImportLocation) := by
    rw [hup]
    exact lookupIL_setIL_self s.content uri { content := none }
  refine ⟨?_, hlook, ?_, ?_⟩
  · rw [hup]
  · intro fmtParam
    have hfmt : ((handleCatalogUpsertPost s key pb).2).format = s.format := by
      rw [hup]
    refine Eq.trans (modelRouteGet_of_lookup
      ((handleCatalogUpsertPost s key pb).2)
      ((goSplitKey key).getD 0 "") ((goSplitKey key).getD 1 "") fmtParam
      { content := none } ?_) rfl
    rw [hfmt, ← huri]
    exact hlook
  · rw [hup]
    show uri ∉ presentUris (setIL s.content uri { content := none })
    exact not_mem_presentUris_setIL_none s.content uri

/-- C9, witness: an upsert of `mnist_v1` with a nil body into the empty
server responds 201. -/
theorem upsert_nil_body_registers_absent_witness :
    (handleCatalogUpsertPost (initialServer "catalog-info.yaml") "mnist_v1"
      pbNilW).1 = 201 :=
  (upsert_nil_body_registers_absent (initialServer "catalog-info.yaml")
    "mnist_v1" "/mnist/v1/catalog-info.yaml" pbNilW
    (by decide) rfl (by decide)).1

/-- C1: the model-card staleness protocol. From any record that is dirty
with a zero serve counter (the state produced by a first upsert or by an
upsert with a changed freshness token): each of the first 11 consecutive
reads returns 200 with the stored content and steps the store (clearing
the dirty flag, incrementing the counter); the 12th consecutive read
returns 304 with no content and the store unchanged; and an upsert with a
changed token against any record restores the dirty flag and zero counter,
so the next read returns 200 with content again. -/
theorem modelcard_staleness_protocol (m : MCStore) (k : String)
    (r : modelCardMetadata) (hm : m k = some r) (hd : r.needToUpdate = true)
    (hc : r.updateCount = 0) :
    (∀ j, j < 11 →
      handleModelCardGet (readIter m k j) k =
        (200, some r.content, readIter m k (j + 1))) ∧
    handleModelCardGet (readIter m k 11) k = (304, none, readIter m k 11) ∧
    (∀ (m2 : MCStore) (r2 : modelCardMetadata) (pb : PostBody),
      m2 k = some r2 → pb.modelCardKey = k →
      pb.lastUpdateTimeSinceEpoch ≠ r2.lastUpdateTimeSinceEpoch →
      upsertModelCard m2 pb k =
        some { content := r2.content,
               lastUpdateTimeSinceEpoch := pb.lastUpdateTimeSinceEpoch,
               updateCount := 0,
               needToUpdate := true } ∧
      (handleModelCardGet (upsertModelCard m2 pb) k).1 = 200 ∧
      (handleModelCardGet (upsertModelCard m2 pb) k).2.1 = some r2.content) := by
  refine ⟨?_, read_throttled_at_11 m k r hm hd hc, ?_⟩
  · intro j hj
    exact read_fresh_step m k r hm hd hc j hj
  · intro m2 r2 pb hm2 hk2 ht2
    have hup := upsert_changed_token_resets m2 k r2 pb hm2 hk2 ht2
    refine ⟨hup, ?_, ?_⟩
    · rw [handleModelCardGet_of_lookup (upsertModelCard m2 pb) k _ hup,
        if_neg (by rintro ⟨h1, _⟩; exact Bool.noConfusion h1)]
    · rw [handleModelCardGet_of_lookup (upsertModelCard m2 pb) k _ hup,
        if_neg (by rintro ⟨h1, _⟩; exact Bool.noConfusion h1)]

/-- C1, witness: for the concrete one-record store `mcW` (dirty, counter
zero at key `foo`), the 12th consecutive read is a 304 that leaves the
store untouched. -/
theorem modelcard_staleness_protocol_witness :
    handleModelCardGet (readIter mcW "foo" 11) "foo" =
      (304, none, readIter mcW "foo" 11) :=
  (modelcard_staleness_protocol mcW "foo" rW (by decide) rfl rfl).2.1

/-- C7: the derived URI is computed by the pure function
`buildImportKeyAndURI` of the `(model, version, format)` triple, used
identically by the upsert and item-get paths; consequently an upsert under
a well-formed key carrying document bytes, followed — after any request
sequence that neither upserts nor deletes that URI — by an item get on the
same `(model, version)` pair returns 200 with exactly the upserted
bytes. -/
theorem upsert_then_get_returns_bytes (s : ServerState) (key uri : String)
    (pb : PostBody) (bs : List Nat) (ops : List CatOp)
    (hk : 2 ≤ (goSplitKey key).length) (hb : pb.body = some bs)
    (huri : uri = (buildImportKeyAndURI ((goSplitKey key).getD 0 "")
      ((goSplitKey key).getD 1 "") s.format).2)
    (hops : ∀ op ∈ ops, ¬ opTouches s.format op uri) :
    (handleCatalogUpsertPost s key pb).1 = 201 ∧
    (∀ fmtParam,
      modelRouteGet (runOps (handleCatalogUpsertPost s key pb).2 ops)
        ((goSplitKey key).getD 0 "") ((goSplitKey key).getD 1 "") fmtParam =
      (200, some bs)) := by
  have hup : handleCatalogUpsertPost s key pb =
      (201, { s with
                content := setIL s.content uri { content := some bs }
                modelcards := upsertModelCard s.modelcards pb }) := by
    rw [handleCatalogUpsertPost_wf s key pb hk, ← huri, hb]
  constructor
  · rw [hup]
  · intro fmtParam
    have hlook1 : lookupIL ((handleCatalogUpsertPost s key pb).2).content uri =
        some ({ content := some bs } : ImportLocation) := by
      rw [hup]
      exact lookupIL_setIL_self s.content uri { content := some bs }
    have hfmt1 : ((handleCatalogUpsertPost s key pb).2).format = s.format := by
      rw [hup]
    have hlook2 : lookupIL
        (runOps (handleCatalogUpsertPost s key pb).2 ops).content uri =
        some ({ content := some bs } : ImportLocation) := by
      rw [runOps_lookup_frame (handleCatalogUpsertPost s key pb).2 ops uri ?_]
      · exact hlook1
      · intro op hop
        rw [hfmt1]
        exact hops op hop
    have hfmt2 : (runOps (handleCatalogUpsertPost s key pb).2 ops).format =
        s.format := by
      rw [runOps_format, hfmt1]
    refine Eq.trans (modelRouteGet_of_lookup
      (runOps (handleCatalogUpsertPost s key pb).2 ops)
      ((goSplitKey key).getD 0 "") ((goSplitKey key).getD 1 "") fmtParam
      { content := some bs } ?_) rfl
    rw [hfmt2, ← huri]
    exact hlook2

/-- C7, witness: upserting `mnist_v1` with bytes into the empty server and
immediately reading it back through the item-get route yields 200 with
those bytes. -/
theorem upsert_then_get_returns_bytes_witness :
    modelRouteGet
      (runOps (handleCatalogUpsertPost (initialServer "catalog-info.yaml")
        "mnist_v1" pbW).2 [])
      "mnist" "v1" "catalog-info.yaml" = (200, some [117, 112]) :=
  (upsert_then_get_returns_bytes (initialServer "catalog-info.yaml")
    "mnist_v1" "/mnist/v1/catalog-info.yaml" pbW [117, 112] []
    (by decide) rfl (by decide)
    (fun op hop => absurd hop (List.not_mem_nil op))).2 "catalog-info.yaml"

/-- C8, code bug: the claim describes the intended hydration control flow
(skip malformed keys and keep going; abort the remainder on a fetch
failure; return to the caller without a fatal error), but the program
cannot deliver it past one insertion: `loadFromStorage` acquires the
process-wide non-reentrant mutex with `defer i.lock.Unlock()` *inside* the
per-key loop (server.go lines 118–119), and Go runs deferred calls only at
function exit, so the second well-formed successfully-fetched key blocks
forever on `Lock()`. Evaluated at the concrete failing input
`["bad", "a_v1", "b_v2"]` with every fetch succeeding: the malformed key
is skipped and the first key is inserted, but hydration then deadlocks —
the remaining key is never processed and the function never returns —
whereas the same run stopped after the single key `a_v1` returns
`(true, nil)` normally. -/
theorem hydration_deadlocks_on_second_insert :
    loadFromStorage stTwoW (initialServer "catalog-info.yaml") =
      HydrationOutcome.deadlock
        { initialServer "catalog-info.yaml" with
            content := [("/a/v1/catalog-info.yaml", { content := some [104, 105] })] } ∧
    loadFromStorage stOneW (initialServer "catalog-info.yaml") =
      HydrationOutcome.returned true none
        { initialServer "catalog-info.yaml" with
            content := [("/a/v1/catalog-info.yaml", { content := some [104, 105] })] } := by
  constructor
  · rfl
  · rfl

/-- C10: in every server state reachable from the empty server by any
request sequence — in particular by any sequence of upserts and model-card
reads — every model-card record with a set dirty flag has a zero serve
counter; equivalently a positive counter implies a clean record, so the
content-serving branch of a read can only start from a zero counter. -/
theorem dirty_record_has_zero_count (fmt : String) (ops : List CatOp)
    (k : String) (r : modelCardMetadata)
    (hm : (runOps (initialServer fmt) ops).modelcards k = some r)
    (hd : r.needToUpdate = true) :
    r.updateCount = 0 := by
  refine runOps_mcInv (initialServer fmt) ops ?_ k r hm hd
  intro k' r' hm'
  exact absurd hm' (by simp [initialServer])

/-- C10, witness: the record created by a first upsert in an empty server
is dirty with a zero counter. -/
theorem dirty_record_has_zero_count_witness :
    ({ content := "bar", lastUpdateTimeSinceEpoch := "t1",
       updateCount := 0, needToUpdate := true } : modelCardMetadata).updateCount
      = 0 :=
  dirty_record_has_zero_count "catalog-info.yaml"
    [CatOp.upsert "mnist_v1" pbW] "foo"
    { content := "bar", lastUpdateTimeSinceEpoch := "t1",
      updateCount := 0, needToUpdate := true }
    (by decide) rfl

end ModelCatalogBridge
